import Mathlib

/-!
Verification of the storage-layout planning core of the clr-installer
repository (src/storage/storage.go), shallowly embedded in Lean.

Modelling conventions:
* Go `uint64` fields are embedded as `Nat`; wherever Go overflow could
  matter (the single subtraction in `NewStandardPartitions`) the
  arithmetic is taken explicitly modulo `2 ^ 64`.
* Go pointers: a `BlockDevice` carries an `id : Nat` modelling the
  object identity of the node (the pointer value); `Parent` is a
  non-owning reference and is embedded as `Option Nat` holding the
  parent's id (`none` = Go `nil`).  Functions that allocate fresh Go
  objects (`Clone`, and `RemoveChild` which calls it) take a fresh-id
  counter and thread it, mirroring the allocator.
* Go slices of pointers (`Children`) are lists of the tree nodes
  themselves; the slice fields `PartTable` and `removedParts` are
  carried as plain values, so a Go shallow copy of the slice header is
  rendered as copying the field verbatim.
* Fallible Go functions returning `error` become `Except`.
-/

namespace ClrStorage

/-- Device type enum from storage.go (BlockDeviceTypeDisk = 0 is the Go
zero value, hence the default below). -/
inductive BlockDeviceType where
  | disk
  | part
  | rom
  | lvm2Group
  | lvm2Volume
  | crypt
  | loop
  | unknown
  deriving DecidableEq, Repr

/-- Device state enum from storage.go. -/
inductive BlockDeviceState where
  | unknown
  | running
  | live
  | connected
  deriving DecidableEq, Repr

/-- One row of a parted partition table (`PartedPartition` in
storage.go).  `Number = 0` together with `FileSystem = "free"` marks a
free-space row. -/
structure PartedPartition where
  Number : Nat := 0
  Start : Nat := 0
  End : Nat := 0
  Size : Nat := 0
  FileSystem : String := ""
  Name : String := ""
  Flags : String := ""
  deriving DecidableEq, Repr

/-- Source `PartedPartition.Clone`: field-by-field copy into a new object
(storage.go 300-312). -/
def PartedPartition.Clone (part : PartedPartition) : PartedPartition :=
  { Number := part.Number
    Start := part.Start
    End := part.End
    Size := part.Size
    FileSystem := part.FileSystem
    Name := part.Name
    Flags := part.Flags }

/-- The scalar fields of a `BlockDevice` (storage.go 38-64).  Defaults
are the Go zero values.  `id` models the identity (address) of the Go
object; `Parent` holds the id of the owning device. -/
structure BDCore where
  id : Nat := 0
  Name : String := ""
  MappedName : String := ""
  Model : String := ""
  MajorMinor : String := ""
  PtType : String := ""
  FsType : String := ""
  UUID : String := ""
  Serial : String := ""
  MountPoint : String := ""
  Label : String := ""
  Size : Nat := 0
  bdType : BlockDeviceType := .disk
  State : BlockDeviceState := .unknown
  ReadOnly : Bool := false
  RemovableDevice : Bool := false
  Parent : Option Nat := none
  UserDefined : Bool := false
  MakePartition : Bool := false
  FormatPartition : Bool := false
  Options : String := ""
  available : Bool := false
  partition : Nat := 0
  PartTable : List PartedPartition := []
  removedParts : List Nat := []
  deriving DecidableEq, Repr

/-- A `BlockDevice` tree: the scalar fields plus the owned children. -/
inductive BlockDevice where
  | mk (core : BDCore) (Children : List BlockDevice)

def BlockDevice.core : BlockDevice → BDCore
  | .mk c _ => c

def BlockDevice.Children : BlockDevice → List BlockDevice
  | .mk _ cs => cs

def BlockDevice.Name (bd : BlockDevice) : String := bd.core.Name

def BlockDevice.Model (bd : BlockDevice) : String := bd.core.Model

def BlockDevice.MajorMinor (bd : BlockDevice) : String := bd.core.MajorMinor

def BlockDevice.FsType (bd : BlockDevice) : String := bd.core.FsType

def BlockDevice.MountPoint (bd : BlockDevice) : String := bd.core.MountPoint

def BlockDevice.Label (bd : BlockDevice) : String := bd.core.Label

def BlockDevice.Size (bd : BlockDevice) : Nat := bd.core.Size

def BlockDevice.bdType (bd : BlockDevice) : BlockDeviceType := bd.core.bdType

def BlockDevice.partition (bd : BlockDevice) : Nat := bd.core.partition

def BlockDevice.PartTable (bd : BlockDevice) : List PartedPartition := bd.core.PartTable

def BlockDevice.MakePartition (bd : BlockDevice) : Bool := bd.core.MakePartition

def BlockDevice.FormatPartition (bd : BlockDevice) : Bool := bd.core.FormatPartition

/-- Field update: `bd.Children = cs`. -/
def BlockDevice.withChildren : BlockDevice → List BlockDevice → BlockDevice
  | .mk c _, cs => .mk c cs

/-- Field update: `bd.Parent = p`. -/
def BlockDevice.withParent : BlockDevice → Option Nat → BlockDevice
  | .mk c cs, p => .mk { c with Parent := p } cs

/-- Field update: `bd.Name = s`. -/
def BlockDevice.withName : BlockDevice → String → BlockDevice
  | .mk c cs, s => .mk { c with Name := s } cs

/-- Field update: `bd.PartTable = t`. -/
def BlockDevice.withPartTable : BlockDevice → List PartedPartition → BlockDevice
  | .mk c cs, t => .mk { c with PartTable := t } cs

/-- Field update: `bd.available = b`. -/
def BlockDevice.withAvailable : BlockDevice → Bool → BlockDevice
  | .mk c cs, b => .mk { c with available := b } cs

@[simp] theorem core_mk (c : BDCore) (cs : List BlockDevice) :
    (BlockDevice.mk c cs).core = c := rfl

@[simp] theorem children_mk (c : BDCore) (cs : List BlockDevice) :
    (BlockDevice.mk c cs).Children = cs := rfl

@[simp] theorem withChildren_mk (c : BDCore) (cs ds : List BlockDevice) :
    (BlockDevice.mk c cs).withChildren ds = .mk c ds := rfl

@[simp] theorem withParent_mk (c : BDCore) (cs : List BlockDevice) (p : Option Nat) :
    (BlockDevice.mk c cs).withParent p = .mk { c with Parent := p } cs := rfl

@[simp] theorem withName_mk (c : BDCore) (cs : List BlockDevice) (s : String) :
    (BlockDevice.mk c cs).withName s = .mk { c with Name := s } cs := rfl

@[simp] theorem withPartTable_mk (c : BDCore) (cs : List BlockDevice) (t : List PartedPartition) :
    (BlockDevice.mk c cs).withPartTable t = .mk { c with PartTable := t } cs := rfl

@[simp] theorem withAvailable_mk (c : BDCore) (cs : List BlockDevice) (b : Bool) :
    (BlockDevice.mk c cs).withAvailable b = .mk { c with available := b } cs := rfl

@[simp] theorem Name_mk (c : BDCore) (cs : List BlockDevice) :
    (BlockDevice.mk c cs).Name = c.Name := rfl

@[simp] theorem Size_mk (c : BDCore) (cs : List BlockDevice) :
    (BlockDevice.mk c cs).Size = c.Size := rfl

@[simp] theorem FsType_mk (c : BDCore) (cs : List BlockDevice) :
    (BlockDevice.mk c cs).FsType = c.FsType := rfl

@[simp] theorem MountPoint_mk (c : BDCore) (cs : List BlockDevice) :
    (BlockDevice.mk c cs).MountPoint = c.MountPoint := rfl

@[simp] theorem Label_mk (c : BDCore) (cs : List BlockDevice) :
    (BlockDevice.mk c cs).Label = c.Label := rfl

@[simp] theorem bdType_mk (c : BDCore) (cs : List BlockDevice) :
    (BlockDevice.mk c cs).bdType = c.bdType := rfl

@[simp] theorem partition_mk (c : BDCore) (cs : List BlockDevice) :
    (BlockDevice.mk c cs).partition = c.partition := rfl

@[simp] theorem PartTable_mk (c : BDCore) (cs : List BlockDevice) :
    (BlockDevice.mk c cs).PartTable = c.PartTable := rfl

/-- Go `strings.Contains`. -/
def strContains (s pat : String) : Bool := decide (pat.toList <:+: s.toList)

/-- Discriminates the error case of an `Except`. -/
def isErrB {ε α : Type} : Except ε α → Bool
  | .error _ => true
  | .ok _ => false

@[simp] theorem isErrB_error {ε α : Type} (e : ε) :
    isErrB (Except.error e : Except ε α) = true := rfl

@[simp] theorem isErrB_ok {ε α : Type} (a : α) :
    isErrB (Except.ok a : Except ε α) = false := rfl

/-! ## findFree (storage.go 284-297) -/

/-- The loop body of `BlockDevice.findFree`: scan the partition table
for the first free row (number 0, filesystem "free") whose size is at
least the requested size, and return its clone. -/
def findFreeLoop : List PartedPartition → Nat → Option PartedPartition
  | [], _ => none
  | part :: rest, size =>
    if part.Number == 0 && part.FileSystem == "free" then
      if part.Size ≥ size then some part.Clone
      else findFreeLoop rest size
    else findFreeLoop rest size

/-- Source `BlockDevice.findFree` (storage.go 284-297). -/
def findFree (bd : BlockDevice) (size : Nat) : Option PartedPartition :=
  findFreeLoop bd.PartTable size

@[simp] theorem clone_Size (p : PartedPartition) : p.Clone.Size = p.Size := rfl

/-- A partition-table row that `findFree size` accepts. -/
def fitsFree (size : Nat) (r : PartedPartition) : Prop :=
  r.Number = 0 ∧ r.FileSystem = "free" ∧ size ≤ r.Size

theorem findFreeLoop_some (l : List PartedPartition) (size : Nat) (p : PartedPartition)
    (h : findFreeLoop l size = some p) :
    ∃ l1 row l2, l = l1 ++ row :: l2 ∧ fitsFree size row ∧ p = row.Clone ∧
      ∀ r ∈ l1, ¬ fitsFree size r := by
  induction l with
  | nil => simp [findFreeLoop] at h
  | cons part rest ih =>
    by_cases hfree : (part.Number == 0 && part.FileSystem == "free") = true
    · by_cases hsz : part.Size ≥ size
      · refine ⟨[], part, rest, by simp, ?_, ?_, by simp⟩
        · simp only [Bool.and_eq_true, beq_iff_eq] at hfree
          exact ⟨hfree.1, hfree.2, hsz⟩
        · rw [findFreeLoop, if_pos hfree, if_pos hsz] at h
          exact (Option.some.injEq _ _ ▸ h).symm
      · rw [findFreeLoop, if_pos hfree, if_neg hsz] at h
        obtain ⟨l1, row, l2, hl, hrow, hp, hmin⟩ := ih h
        refine ⟨part :: l1, row, l2, by simp [hl], hrow, hp, ?_⟩
        intro r hr
        rcases List.mem_cons.mp hr with h1 | h1
        · subst h1
          intro hc
          exact hsz hc.2.2
        · exact hmin r h1
    · rw [findFreeLoop, if_neg hfree] at h
      obtain ⟨l1, row, l2, hl, hrow, hp, hmin⟩ := ih h
      refine ⟨part :: l1, row, l2, by simp [hl], hrow, hp, ?_⟩
      intro r hr
      rcases List.mem_cons.mp hr with h1 | h1
      · subst h1
        intro hc
        exact hfree (by simp [hc.1, hc.2.1])
      · exact hmin r h1

theorem findFreeLoop_none (l : List PartedPartition) (size : Nat) :
    findFreeLoop l size = none ↔ ∀ r ∈ l, ¬ fitsFree size r := by
  induction l with
  | nil => simp [findFreeLoop]
  | cons part rest ih =>
    by_cases hfree : (part.Number == 0 && part.FileSystem == "free") = true
    · by_cases hsz : part.Size ≥ size
      · rw [findFreeLoop, if_pos hfree, if_pos hsz]
        simp only [Bool.and_eq_true, beq_iff_eq] at hfree
        constructor
        · intro h
          exact absurd h (by simp)
        · intro h
          exact absurd ⟨hfree.1, hfree.2, hsz⟩ (h part (List.mem_cons_self _ _))
      · rw [findFreeLoop, if_pos hfree, if_neg hsz, ih]
        constructor
        · intro h r hr
          rcases List.mem_cons.mp hr with h1 | h1
          · subst h1
            intro hc
            exact hsz hc.2.2
          · exact h r h1
        · intro h r hr
          exact h r (List.mem_cons_of_mem _ hr)
    · rw [findFreeLoop, if_neg hfree, ih]
      constructor
      · intro h r hr
        rcases List.mem_cons.mp hr with h1 | h1
        · subst h1
          intro hc
          exact hfree (by simp [hc.1, hc.2.1])
        · exact h r h1
      · intro h r hr
        exact h r (List.mem_cons_of_mem _ hr)

/-- Claim C9: on a `BlockDevice` whose `PartTable` contains a free row
(Number 0, FileSystem "free") of size at least `S`, `findFree S`
returns a clone of the first such row in table order (first-fit): the
result has `Size ≥ S` and no earlier free row fits `S`; when `S`
exceeds the size of every free row, `findFree S` returns nothing. -/
theorem C9_findFree_spec (bd : BlockDevice) (S : Nat) :
    (∀ p, findFree bd S = some p →
      ∃ l1 row l2, bd.PartTable = l1 ++ row :: l2 ∧
        row.Number = 0 ∧ row.FileSystem = "free" ∧ S ≤ row.Size ∧
        p = row.Clone ∧ S ≤ p.Size ∧
        ∀ r ∈ l1, ¬(r.Number = 0 ∧ r.FileSystem = "free" ∧ S ≤ r.Size)) ∧
    (findFree bd S = none ↔
      ∀ r ∈ bd.PartTable, r.Number = 0 → r.FileSystem = "free" → r.Size < S) := by
  constructor
  · intro p hp
    obtain ⟨l1, row, l2, hl, hrow, hpc, hmin⟩ := findFreeLoop_some bd.PartTable S p hp
    exact ⟨l1, row, l2, hl, hrow.1, hrow.2.1, hrow.2.2,
      hpc, by rw [hpc, clone_Size]; exact hrow.2.2, hmin⟩
  · rw [findFree, findFreeLoop_none]
    constructor
    · intro h r hr h0 hfs
      by_contra hlt
      exact h r hr ⟨h0, hfs, Nat.le_of_not_lt hlt⟩
    · intro h r hr hc
      exact Nat.not_le_of_lt (h r hr hc.1 hc.2.1) hc.2.2

/-- The fitting free row used by the C9 witness. -/
def w9Row : PartedPartition :=
  { Number := 0, Start := 80, End := 300, Size := 220, FileSystem := "free" }

/-- Concrete device for the C9 witness: a used row, a free row that is
too small, then a free row that fits. -/
def w9Bd : BlockDevice :=
  .mk { Name := "sda",
        PartTable :=
          [ { Number := 1, Start := 0, End := 50, Size := 50, FileSystem := "ext4" },
            { Number := 0, Start := 50, End := 80, Size := 30, FileSystem := "free" },
            w9Row ] } []

/-- Witness for C9, instantiating the theorem at `w9Bd` and `S = 100`
and discharging its hypotheses there. -/
theorem C9_findFree_spec_witness :
    ∃ l1 row l2, w9Bd.PartTable = l1 ++ row :: l2 ∧
      row.Number = 0 ∧ row.FileSystem = "free" ∧ 100 ≤ row.Size ∧
      w9Row.Clone = row.Clone ∧ 100 ≤ w9Row.Clone.Size ∧
      ∀ r ∈ l1, ¬(r.Number = 0 ∧ r.FileSystem = "free" ∧ 100 ≤ r.Size) :=
  (C9_findFree_spec w9Bd 100).1 w9Row.Clone rfl

/-! ## Validate (storage.go 404-462) -/

/-- Source `BlockDevice.FsTypeNotSwap` (storage.go 405-407). -/
def FsTypeNotSwap (bd : BlockDevice) : Bool := bd.FsType != "swap"

/-- The distinct errors `Validate` can return (storage.go 422-462), in
the order the corresponding `errors.Errorf` calls appear. -/
inductive ValidateError where
  | bootEncrypted
  | zeroSize
  | noEfi
  | noRoot
  | noPassphrase
  deriving DecidableEq, Repr

/-- The child loop of `Validate` (storage.go 427-447): accumulates the
`bootPartition`, `rootPartition` and `encrypted` flags and returns
early with an error for an encrypted /boot or for a zero-size child of
a zero-size non-disk device. -/
def validateLoop (bd : BlockDevice) :
    List BlockDevice → Bool → Bool → Bool → Except ValidateError (Bool × Bool × Bool)
  | [], boot, root, enc => .ok (boot, root, enc)
  | ch :: rest, boot, root, enc =>
    let isBootCh := ch.FsType == "vfat" && ch.MountPoint == "/boot"
    if isBootCh && ch.bdType == BlockDeviceType.crypt then
      .error .bootEncrypted
    else
      let boot := boot || isBootCh
      let root := root || ch.MountPoint == "/"
      let enc := enc || (ch.bdType == BlockDeviceType.crypt && FsTypeNotSwap ch)
      if bd.bdType != BlockDeviceType.disk && bd.Size == 0 && ch.Size == 0 then
        .error .zeroSize
      else
        validateLoop bd rest boot root enc

/-- Source `BlockDevice.Validate` (storage.go 422-462). -/
def Validate (bd : BlockDevice) (legacyBios : Bool) (cryptPass : String) :
    Except ValidateError Unit :=
  match validateLoop bd bd.Children false false false with
  | .error e => .error e
  | .ok (boot, root, enc) =>
    if !boot && !legacyBios then .error .noEfi
    else if !root then .error .noRoot
    else if enc && cryptPass == "" then .error .noPassphrase
    else .ok ()

/-- Per-child conditions that abort the `Validate` loop with an error. -/
def chAborts (bd ch : BlockDevice) : Bool :=
  ((ch.FsType == "vfat" && ch.MountPoint == "/boot") && ch.bdType == BlockDeviceType.crypt) ||
    (bd.bdType != BlockDeviceType.disk && bd.Size == 0 && ch.Size == 0)

theorem validateLoop_err (bd : BlockDevice) (cs : List BlockDevice) (b r e : Bool) :
    isErrB (validateLoop bd cs b r e) = cs.any (chAborts bd) := by
  induction cs generalizing b r e with
  | nil => simp [validateLoop]
  | cons ch rest ih =>
    rw [validateLoop]
    cases h1 : ((ch.FsType == "vfat" && ch.MountPoint == "/boot") &&
        ch.bdType == BlockDeviceType.crypt) with
    | true =>
      simp [h1, chAborts, List.any_cons]
    | false =>
      cases h2 : (bd.bdType != BlockDeviceType.disk && bd.Size == 0 && ch.Size == 0) with
      | true => simp [h1, h2, chAborts, List.any_cons]
      | false => simp [h1, h2, chAborts, List.any_cons, ih]

theorem validateLoop_ok (bd : BlockDevice) (cs : List BlockDevice) (b r e : Bool)
    (h : cs.any (chAborts bd) = false) :
    validateLoop bd cs b r e =
      .ok (b || cs.any (fun ch => ch.FsType == "vfat" && ch.MountPoint == "/boot"),
           r || cs.any (fun ch => ch.MountPoint == "/"),
           e || cs.any (fun ch => ch.bdType == BlockDeviceType.crypt && FsTypeNotSwap ch)) := by
  induction cs generalizing b r e with
  | nil => simp [validateLoop]
  | cons ch rest ih =>
    simp only [List.any_cons, Bool.or_eq_false_iff, chAborts] at h
    obtain ⟨⟨h1, h2⟩, h3⟩ := h
    rw [validateLoop]
    simp only [h1, h2, Bool.false_eq_true, if_false, List.any_cons]
    rw [ih _ _ _ h3]
    rw [Bool.or_assoc, Bool.or_assoc, Bool.or_assoc]

/-- The error status of the post-loop check chain in `Validate`
(storage.go 449-461), as a boolean formula in the three flags. -/
theorem validate_chain (boot root enc legacyBios : Bool) (cryptPass : String) :
    isErrB (if !boot && !legacyBios then (Except.error ValidateError.noEfi : Except ValidateError Unit)
      else if !root then .error .noRoot
      else if enc && cryptPass == "" then .error .noPassphrase
      else .ok ()) = ((!boot && !legacyBios) || !root || (enc && cryptPass == "")) := by
  cases boot <;> cases root <;> cases enc <;> cases legacyBios <;>
    cases hq : (cryptPass == "") <;> simp [hq]

/-- Claim C1: `Validate(legacyBios, cryptPass)` fails exactly when one
of the following holds, and succeeds otherwise: (1) no child is vfat
mounted at "/boot" and `legacyBios` is false; (2) some vfat "/boot"
child has crypt type; (3) no child has MountPoint "/"; (4) some
crypt-type child with a non-swap filesystem exists and `cryptPass` is
empty; (5) the device is a non-disk of size 0 with some zero-size
child. -/
theorem C1_validate_fails_iff (bd : BlockDevice) (legacyBios : Bool) (cryptPass : String) :
    isErrB (Validate bd legacyBios cryptPass) = true ↔
      ((¬ ∃ ch ∈ bd.Children, ch.FsType = "vfat" ∧ ch.MountPoint = "/boot") ∧
        legacyBios = false) ∨
      (∃ ch ∈ bd.Children, ch.FsType = "vfat" ∧ ch.MountPoint = "/boot" ∧
        ch.bdType = BlockDeviceType.crypt) ∨
      (¬ ∃ ch ∈ bd.Children, ch.MountPoint = "/") ∨
      ((∃ ch ∈ bd.Children, ch.bdType = BlockDeviceType.crypt ∧ ch.FsType ≠ "swap") ∧
        cryptPass = "") ∨
      (bd.bdType ≠ BlockDeviceType.disk ∧ bd.Size = 0 ∧
        ∃ ch ∈ bd.Children, ch.Size = 0) := by
  by_cases habort : bd.Children.any (chAborts bd) = true
  · have hlhs : isErrB (Validate bd legacyBios cryptPass) = true := by
      rw [Validate]
      cases hsplit : validateLoop bd bd.Children false false false with
      | error e => simp
      | ok v =>
        have h2 := validateLoop_err bd bd.Children false false false
        rw [hsplit, habort] at h2
        simp at h2
    refine iff_of_true hlhs ?_
    rw [List.any_eq_true] at habort
    obtain ⟨ch, hch, hab⟩ := habort
    simp only [chAborts, Bool.or_eq_true, Bool.and_eq_true, beq_iff_eq, bne_iff_ne,
      decide_eq_true_eq] at hab
    rcases hab with ⟨⟨hv, hm⟩, hc⟩ | ⟨⟨hd, hs⟩, hz⟩
    · exact Or.inr (Or.inl ⟨ch, hch, hv, hm, hc⟩)
    · exact Or.inr (Or.inr (Or.inr (Or.inr ⟨hd, by simpa using hs, ch, hch, by simpa using hz⟩)))
  · rw [Bool.not_eq_true] at habort
    have hnoabort : ∀ ch ∈ bd.Children, chAborts bd ch = false := by
      rw [List.any_eq_false] at habort
      intro ch hch
      simpa using habort ch hch
    have hno2 : ¬ ∃ ch ∈ bd.Children, ch.FsType = "vfat" ∧ ch.MountPoint = "/boot" ∧
        ch.bdType = BlockDeviceType.crypt := by
      rintro ⟨ch, hch, hv, hm, hc⟩
      have := hnoabort ch hch
      simp [chAborts, hv, hm, hc] at this
    have hno5 : ¬ (bd.bdType ≠ BlockDeviceType.disk ∧ bd.Size = 0 ∧
        ∃ ch ∈ bd.Children, ch.Size = 0) := by
      rintro ⟨hd, hs, ch, hch, hz⟩
      have := hnoabort ch hch
      simp [chAborts, hd, hs, hz] at this
    rw [Validate, validateLoop_ok bd bd.Children false false false habort]
    simp only [Bool.false_or]
    rw [validate_chain]
    simp only [Bool.or_eq_true, Bool.and_eq_true, Bool.not_eq_true', List.any_eq_true,
      List.any_eq_false, beq_iff_eq, FsTypeNotSwap, bne_iff_ne]
    constructor
    · rintro ((⟨hall, hleg⟩ | hallroot) | ⟨⟨ch, hch, hc, hsw⟩, hp⟩)
      · refine Or.inl ⟨?_, hleg⟩
        rintro ⟨ch, hch, hv, hm⟩
        have := hall ch hch
        simp [hv, hm] at this
      · refine Or.inr (Or.inr (Or.inl ?_))
        rintro ⟨ch, hch, hm⟩
        have := hallroot ch hch
        simp [hm] at this
      · exact Or.inr (Or.inr (Or.inr (Or.inl ⟨⟨ch, hch, hc, hsw⟩, hp⟩)))
    · rintro (⟨hne, hleg⟩ | h2 | h3 | ⟨⟨ch, hch, hc, hsw⟩, hp⟩ | h5)
      · refine Or.inl (Or.inl ⟨?_, hleg⟩)
        intro ch hch
        by_cases hv : ch.FsType = "vfat"
        · by_cases hm : ch.MountPoint = "/boot"
          · exact absurd ⟨ch, hch, hv, hm⟩ hne
          · simp [hm]
        · simp [hv]
      · exact absurd h2 hno2
      · refine Or.inl (Or.inr ?_)
        intro ch hch
        by_cases hm : ch.MountPoint = "/"
        · exact absurd ⟨ch, hch, hm⟩ h3
        · simpa using hm
      · exact Or.inr ⟨⟨ch, hch, hc, hsw⟩, hp⟩
      · exact absurd h5 hno5

/-! ## DiskSize (storage.go 1425-1454) -/

/-- The checks `DiskSize` performs after the child loop (storage.go
1443-1453), with the loop outcome passed in (a loop error is returned
as is). -/
def diskSizeCheck (core : BDCore) : Except String Nat → Except String Nat
  | .error e => .error e
  | .ok childSize =>
    if core.Size > 0 ∧ childSize > core.Size then
      .error (core.Name ++ ": Partition Sizes " ++ toString childSize ++
        " larger than Device Size: " ++ toString core.Size)
    else if core.Size > 0 then .ok core.Size
    else .ok childSize

/-- One iteration of the child loop of `DiskSize` (storage.go
1431-1441): the child's contribution (an error is returned
immediately) added to the sum of the rest.  The Go accumulator
`childSize` is a uint64, so the addition wraps modulo 2^64. -/
def sumStep : Except String Nat → Except String Nat → Except String Nat
  | .error e, _ => .error e
  | .ok _, .error e => .error e
  | .ok size, .ok rs => .ok ((size + rs) % 2 ^ 64)

@[simp] theorem diskSizeCheck_error (core : BDCore) (e : String) :
    diskSizeCheck core (.error e) = .error e := rfl

@[simp] theorem sumStep_error (e : String) (r : Except String Nat) :
    sumStep (.error e) r = .error e := rfl

@[simp] theorem sumStep_ok_error (s : Nat) (e : String) :
    sumStep (.ok s) (.error e) = .error e := rfl

@[simp] theorem sumStep_ok_ok (s rs : Nat) :
    sumStep (.ok s) (.ok rs) = .ok ((s + rs) % 2 ^ 64) := rfl

mutual
/-- Source `BlockDevice.DiskSize` (storage.go 1425-1454): trusts a positive
declared size but fails when the children sum exceeds it; a zero
declared size is replaced by the children sum.  A child that itself
has children contributes its own `DiskSize`, and a recursive error is
returned immediately. -/
def DiskSize : BlockDevice → Except String Nat
  | .mk core cs => diskSizeCheck core (childrenSum cs)
/-- The child-summing loop of `DiskSize` (storage.go 1429-1441). -/
def childrenSum : List BlockDevice → Except String Nat
  | [] => .ok 0
  | ch :: rest =>
    if ch.Children.length > 0 then sumStep (DiskSize ch) (childrenSum rest)
    else sumStep (.ok ch.Size) (childrenSum rest)
end

mutual
/-- Reference definition following the amended claim C3: the value
`DiskSize` reports on success — the declared size when positive,
otherwise the children sum. -/
def dsVal : BlockDevice → Nat
  | .mk core cs => if core.Size > 0 then core.Size else dsSum cs
/-- Reference definition following the amended claim C3: the children
sum, a child with children contributing `dsVal` and a leaf child its
declared size, accumulated in uint64 arithmetic (modulo 2^64). -/
def dsSum : List BlockDevice → Nat
  | [] => 0
  | ch :: rest =>
    ((if ch.Children.length > 0 then dsVal ch else ch.Size) + dsSum rest) % 2 ^ 64
end

mutual
/-- Reference definition following the amended claim C3: `DiskSize`
errors exactly when the declared size is positive and exceeded by the
children sum, or some child that itself has children errors
recursively. -/
def dsErr : BlockDevice → Bool
  | .mk core cs => dsSumErr cs || (decide (core.Size > 0) && decide (dsSum cs > core.Size))
/-- Reference definition following the amended claim C3, lifted to a
children list. -/
def dsSumErr : List BlockDevice → Bool
  | [] => false
  | ch :: rest => (decide (ch.Children.length > 0) && dsErr ch) || dsSumErr rest
end

/-- Simultaneous induction for the nested `BlockDevice` tree, derived
from the auto-generated recursor. -/
theorem bdInd (motive1 : BlockDevice → Prop) (motive2 : List BlockDevice → Prop)
    (h1 : ∀ core cs, motive2 cs → motive1 (.mk core cs))
    (h2 : motive2 [])
    (h3 : ∀ b bs, motive1 b → motive2 bs → motive2 (b :: bs)) :
    ∀ bd, motive1 bd :=
  fun bd => @BlockDevice.rec motive1 motive2 h1 h2 h3 bd

/-- Companion of `bdInd` concluding at the list level. -/
theorem bdIndList (motive1 : BlockDevice → Prop) (motive2 : List BlockDevice → Prop)
    (h1 : ∀ core cs, motive2 cs → motive1 (.mk core cs))
    (h2 : motive2 [])
    (h3 : ∀ b bs, motive1 b → motive2 bs → motive2 (b :: bs)) :
    ∀ cs, motive2 cs :=
  fun cs => List.rec h2 (fun b bs ih => h3 b bs (bdInd motive1 motive2 h1 h2 h3 b) ih) cs

/-- Claim C3 (amended): `DiskSize` errors exactly when the declared
size is positive and exceeded by the recursively computed children
sum — accumulated, like the Go uint64 `childSize`, modulo 2^64 — or
some child that itself has children errors recursively (such a
recursive error propagates even when `bd.Size = 0`); on success it
returns the declared size when positive and the (wrapped) children
sum when the declared size is 0. -/
theorem C3_diskSize_amended (bd : BlockDevice) :
    isErrB (DiskSize bd) = dsErr bd ∧
      (dsErr bd = false → DiskSize bd = .ok (dsVal bd)) := by
  refine bdInd
    (fun b => isErrB (DiskSize b) = dsErr b ∧
      (dsErr b = false → DiskSize b = .ok (dsVal b)))
    (fun cs => isErrB (childrenSum cs) = dsSumErr cs ∧
      (dsSumErr cs = false → childrenSum cs = .ok (dsSum cs)))
    ?_ ?_ ?_ bd
  · intro core cs ih
    rw [DiskSize, dsErr, dsVal]
    cases hcs : childrenSum cs with
    | error e =>
      rw [hcs] at ih
      simp only [isErrB_error] at ih
      rw [← ih.1]
      simp
    | ok childSize =>
      rw [hcs] at ih
      simp only [isErrB_ok] at ih
      have hsum : childSize = dsSum cs := Except.ok.inj (ih.2 ih.1.symm)
      rw [← ih.1, ← hsum]
      simp only [diskSizeCheck]
      by_cases hbig : core.Size > 0 ∧ childSize > core.Size
      · rw [if_pos hbig]
        constructor
        · rw [decide_eq_true hbig.1, decide_eq_true hbig.2]
          simp
        · intro hfalse
          rw [decide_eq_true hbig.1, decide_eq_true hbig.2] at hfalse
          simp at hfalse
      · rw [if_neg hbig]
        have hdec : (decide (core.Size > 0) && decide (childSize > core.Size)) = false := by
          by_cases h0 : core.Size > 0
          · rw [decide_eq_true h0,
              decide_eq_false (fun hc => hbig ⟨h0, hc⟩)]
            simp
          · rw [decide_eq_false h0]
            simp
        rw [hdec]
        constructor
        · by_cases h0 : core.Size > 0 <;> simp [h0]
        · intro _
          by_cases h0 : core.Size > 0 <;> simp [h0]
  · simp [childrenSum, dsSumErr, dsSum]
  · intro b bs ihb ihbs
    rw [childrenSum, dsSumErr, dsSum]
    by_cases hlen : b.Children.length > 0
    · rw [if_pos hlen, if_pos hlen, decide_eq_true hlen]
      cases hb : DiskSize b with
      | error e =>
        have hbe : dsErr b = true := by rw [← ihb.1, hb]; rfl
        rw [hbe]
        simp
      | ok v =>
        have hbe : dsErr b = false := by rw [← ihb.1, hb]; rfl
        have hv : v = dsVal b := by
          have h := ihb.2 hbe
          rw [hb] at h
          exact Except.ok.inj h
        rw [hbe]
        cases hcs : childrenSum bs with
        | error e =>
          have hse : dsSumErr bs = true := by rw [← ihbs.1, hcs]; rfl
          rw [hse]
          simp
        | ok rs =>
          have hse : dsSumErr bs = false := by rw [← ihbs.1, hcs]; rfl
          have hrs : rs = dsSum bs := by
            have h := ihbs.2 hse
            rw [hcs] at h
            exact Except.ok.inj h
          rw [hse, hv, hrs]
          simp [hlen]
    · rw [if_neg hlen, if_neg hlen, decide_eq_false hlen]
      cases hcs : childrenSum bs with
      | error e =>
        have hse : dsSumErr bs = true := by rw [← ihbs.1, hcs]; rfl
        rw [hse]
        simp
      | ok rs =>
        have hse : dsSumErr bs = false := by rw [← ihbs.1, hcs]; rfl
        have hrs : rs = dsSum bs := by
          have h := ihbs.2 hse
          rw [hcs] at h
          exact Except.ok.inj h
        rw [hse, hrs]
        simp [hlen]

/-- Demonstration that the children accumulation wraps like the Go
uint64 `childSize`: on a disk of declared size 1 with two leaf
children of 2^63 bytes each, the accumulated sum wraps to 0, so no
size-consistency error fires and `DiskSize` returns the declared
size. -/
theorem diskSize_children_sum_wraps :
    DiskSize (.mk { Name := "sda", Size := 1 }
      [ .mk { Name := "sda1", Size := 2 ^ 63 } [],
        .mk { Name := "sda2", Size := 2 ^ 63 } [] ]) = .ok 1 := rfl

/-- Consistent tree for the C3 witness: a disk of declared size 100
with children of sizes 40 and 60. -/
def w3Bd : BlockDevice :=
  .mk { Name := "sda", Size := 100 }
    [ .mk { Name := "sda1", Size := 40 } [], .mk { Name := "sda2", Size := 60 } [] ]

/-- Witness for the amended C3, instantiating the theorem at `w3Bd`
and discharging the no-error hypothesis of its value part there. -/
theorem C3_diskSize_amended_witness :
    dsErr w3Bd = false ∧ DiskSize w3Bd = .ok (dsVal w3Bd) :=
  ⟨rfl, (C3_diskSize_amended w3Bd).2 rfl⟩

/-- A tree with declared size 0 whose child (itself with a child)
carries an internal size inconsistency: the child declares 5 bytes but
its own child declares 10. -/
def c3Bd : BlockDevice :=
  .mk { Name := "vg0", Size := 0 }
    [ .mk { Name := "lv0", Size := 5 } [ .mk { Name := "lv0a", Size := 10 } [] ] ]

/-- Counterexample to claim C3 as stated: `c3Bd.Size = 0`, so the
claimed condition "bd.Size > 0 and the children sum exceeds bd.Size"
is false and the claim predicts success, yet `DiskSize` returns an
error (the recursive error from the child propagates). -/
theorem C3_counterexample :
    c3Bd.Size = 0 ∧ isErrB (DiskSize c3Bd) = true := ⟨rfl, rfl⟩

/-! ## Clone (storage.go 315-351) -/

mutual
/-- Source `BlockDevice.Clone` (storage.go 315-351): allocates a new
node (`fresh` is the id the new object receives, mirroring the Go
allocator) and copies the fields listed in the source's copy literal —
including the `Parent` reference and the `PartTable`/`removedParts`
slice headers, carried over verbatim.  `PtType` and `Options` are
absent from that literal, so the clone gets their zero value "".  Each
child is then cloned and its clone's `Parent` repointed at the new
node.  Returns the clone and the next unused id. -/
def cloneBD : BlockDevice → Nat → BlockDevice × Nat
  | .mk core cs, fresh =>
    let p := cloneKids cs (fresh + 1) fresh
    (.mk { core with id := fresh, PtType := "", Options := "" } p.1, p.2)
/-- The child loop of `Clone` (storage.go 343-348): clones the
children in order, setting each clone's `Parent` to the new parent's
id. -/
def cloneKids : List BlockDevice → Nat → Nat → List BlockDevice × Nat
  | [], fresh, _ => ([], fresh)
  | c :: rest, fresh, parentId =>
    let p := cloneBD c fresh
    let q := cloneKids rest p.2 parentId
    (p.1.withParent (some parentId) :: q.1, q.2)
end

mutual
/-- The ids (object identities) of every node of a tree. -/
def idsOf : BlockDevice → List Nat
  | .mk core cs => core.id :: idsOfList cs
def idsOfList : List BlockDevice → List Nat
  | [] => []
  | b :: bs => idsOf b ++ idsOfList bs
end

mutual
/-- Erases, at every node, the object identity, the `Parent`
reference, and the two fields the source's `Clone` does not copy
(`PtType`, `Options`), leaving all other per-node field values
(including `PartTable` and `removedParts`). -/
def bdShape : BlockDevice → BlockDevice
  | .mk core cs =>
    .mk { core with id := 0, Parent := none, PtType := "", Options := "" } (bdShapeList cs)
def bdShapeList : List BlockDevice → List BlockDevice
  | [] => []
  | b :: bs => bdShape b :: bdShapeList bs
end

mutual
/-- Every child at every depth holds a `Parent` reference equal to the
id of the node that owns it. -/
def parentsLinked : BlockDevice → Bool
  | .mk core cs => parentsLinkedList core.id cs
def parentsLinkedList : Nat → List BlockDevice → Bool
  | _, [] => true
  | pid, c :: rest =>
    (c.core.Parent == some pid) && parentsLinked c && parentsLinkedList pid rest
end

@[simp] theorem idsOf_withParent (b : BlockDevice) (p : Option Nat) :
    idsOf (b.withParent p) = idsOf b := by
  cases b with
  | mk core cs => rw [BlockDevice.withParent, idsOf, idsOf]

@[simp] theorem bdShape_withParent (b : BlockDevice) (p : Option Nat) :
    bdShape (b.withParent p) = bdShape b := by
  cases b with
  | mk core cs => rw [BlockDevice.withParent, bdShape, bdShape]

@[simp] theorem parentsLinked_withParent (b : BlockDevice) (p : Option Nat) :
    parentsLinked (b.withParent p) = parentsLinked b := by
  cases b with
  | mk core cs => rw [BlockDevice.withParent, parentsLinked, parentsLinked]

@[simp] theorem withParent_core_Parent (b : BlockDevice) (p : Option Nat) :
    (b.withParent p).core.Parent = p := by
  cases b with
  | mk core cs => rfl

theorem cloneBD_ids (b : BlockDevice) : ∀ fresh : Nat,
    fresh < (cloneBD b fresh).2 ∧
      ∀ i ∈ idsOf (cloneBD b fresh).1, fresh ≤ i ∧ i < (cloneBD b fresh).2 := by
  refine bdInd
    (fun b => ∀ fresh : Nat, fresh < (cloneBD b fresh).2 ∧
      ∀ i ∈ idsOf (cloneBD b fresh).1, fresh ≤ i ∧ i < (cloneBD b fresh).2)
    (fun cs => ∀ fresh pid : Nat, fresh ≤ (cloneKids cs fresh pid).2 ∧
      ∀ i ∈ idsOfList (cloneKids cs fresh pid).1, fresh ≤ i ∧ i < (cloneKids cs fresh pid).2)
    ?_ ?_ ?_ b
  · intro core cs ih fresh
    obtain ⟨hle, hmem⟩ := ih (fresh + 1) fresh
    simp only [cloneBD, idsOf]
    constructor
    · exact Nat.lt_of_succ_le hle
    · intro i hi
      rcases List.mem_cons.mp hi with h1 | h1
      · subst h1
        exact ⟨Nat.le_refl _, Nat.lt_of_succ_le hle⟩
      · obtain ⟨ha, hb⟩ := hmem i h1
        exact ⟨Nat.le_of_succ_le ha, hb⟩
  · intro fresh pid
    simp [cloneKids, idsOfList]
  · intro c rest ihc ihrest fresh pid
    obtain ⟨hc1, hc2⟩ := ihc fresh
    obtain ⟨hr1, hr2⟩ := ihrest (cloneBD c fresh).2 pid
    simp only [cloneKids, idsOfList, idsOf_withParent]
    constructor
    · exact Nat.le_trans (Nat.le_of_lt hc1) hr1
    · intro i hi
      rcases List.mem_append.mp hi with h1 | h1
      · obtain ⟨ha, hb⟩ := hc2 i h1
        exact ⟨ha, Nat.lt_of_lt_of_le hb hr1⟩
      · obtain ⟨ha, hb⟩ := hr2 i h1
        exact ⟨Nat.le_trans (Nat.le_of_lt hc1) ha, hb⟩

theorem cloneBD_shape (b : BlockDevice) : ∀ fresh : Nat,
    bdShape (cloneBD b fresh).1 = bdShape b := by
  refine bdInd
    (fun b => ∀ fresh : Nat, bdShape (cloneBD b fresh).1 = bdShape b)
    (fun cs => ∀ fresh pid : Nat, bdShapeList (cloneKids cs fresh pid).1 = bdShapeList cs)
    ?_ ?_ ?_ b
  · intro core cs ih fresh
    simp only [cloneBD, bdShape]
    rw [ih (fresh + 1) fresh]
  · intro fresh pid
    simp [cloneKids]
  · intro c rest ihc ihrest fresh pid
    simp only [cloneKids, bdShapeList, bdShape_withParent]
    rw [ihc fresh, ihrest (cloneBD c fresh).2 pid]

theorem cloneBD_linked (b : BlockDevice) : ∀ fresh : Nat,
    parentsLinked (cloneBD b fresh).1 = true := by
  refine bdInd
    (fun b => ∀ fresh : Nat, parentsLinked (cloneBD b fresh).1 = true)
    (fun cs => ∀ fresh pid : Nat,
      parentsLinkedList pid (cloneKids cs fresh pid).1 = true)
    ?_ ?_ ?_ b
  · intro core cs ih fresh
    simp only [cloneBD, parentsLinked]
    exact ih (fresh + 1) fresh
  · intro fresh pid
    simp [cloneKids, parentsLinkedList]
  · intro c rest ihc ihrest fresh pid
    simp only [cloneKids, parentsLinkedList, parentsLinked_withParent,
      withParent_core_Parent]
    rw [ihc fresh, ihrest (cloneBD c fresh).2 pid]
    simp

mutual
/-- Predicate over a tree: `PtType` and `Options` — the two fields the
source's `Clone` does not copy — are empty at every node. -/
def ptOptionsCleared : BlockDevice → Bool
  | .mk core cs =>
    (core.PtType == "") && (core.Options == "") && ptOptionsClearedList cs
/-- Predicate `ptOptionsCleared` over a list of trees. -/
def ptOptionsClearedList : List BlockDevice → Bool
  | [] => true
  | b :: bs => ptOptionsCleared b && ptOptionsClearedList bs
end

@[simp] theorem ptOptionsCleared_withParent (b : BlockDevice) (p : Option Nat) :
    ptOptionsCleared (b.withParent p) = ptOptionsCleared b := by
  cases b with
  | mk core cs => rw [BlockDevice.withParent, ptOptionsCleared, ptOptionsCleared]

theorem cloneBD_cleared (b : BlockDevice) : ∀ fresh : Nat,
    ptOptionsCleared (cloneBD b fresh).1 = true := by
  refine bdInd
    (fun b => ∀ fresh : Nat, ptOptionsCleared (cloneBD b fresh).1 = true)
    (fun cs => ∀ fresh pid : Nat,
      ptOptionsClearedList (cloneKids cs fresh pid).1 = true)
    ?_ ?_ ?_ b
  · intro core cs ih fresh
    simp only [cloneBD, ptOptionsCleared]
    rw [ih (fresh + 1) fresh]
    simp
  · intro fresh pid
    simp [cloneKids, ptOptionsClearedList]
  · intro c rest ihc ihrest fresh pid
    simp only [cloneKids, ptOptionsClearedList, ptOptionsCleared_withParent]
    rw [ihc fresh, ihrest (cloneBD c fresh).2 pid]
    simp

/-- Claim C4 (amended): `Clone` yields a tree with identical per-node
field values apart from `PtType` and `Options`, which the source's
copy literal omits and which are therefore reset to "" at every clone
node (`bdShape` erases exactly the object identity, the `Parent`
reference, and these two fields); the clone shares no node identity
with the original (so mutating any clone node cannot affect the
original); every child clone's `Parent` points at its new parent; the
root clone keeps the original's `Parent`; and the `PartTable` and
`removedParts` slices are carried over verbatim (at the root
explicitly, and at every node via `bdShape` equality). -/
theorem C4_clone_amended (bd : BlockDevice) (fresh : Nat)
    (h : ∀ i ∈ idsOf bd, i < fresh) :
    bdShape (cloneBD bd fresh).1 = bdShape bd ∧
    ptOptionsCleared (cloneBD bd fresh).1 = true ∧
    (∀ i ∈ idsOf (cloneBD bd fresh).1, i ∉ idsOf bd) ∧
    parentsLinked (cloneBD bd fresh).1 = true ∧
    (cloneBD bd fresh).1.core.Parent = bd.core.Parent ∧
    (cloneBD bd fresh).1.core.PartTable = bd.core.PartTable ∧
    (cloneBD bd fresh).1.core.removedParts = bd.core.removedParts := by
  refine ⟨cloneBD_shape bd fresh, cloneBD_cleared bd fresh, ?_,
    cloneBD_linked bd fresh, ?_, ?_, ?_⟩
  · intro i hi hmem
    obtain ⟨hge, _⟩ := (cloneBD_ids bd fresh).2 i hi
    exact Nat.not_le_of_lt (h i hmem) hge
  · cases bd with
    | mk core cs => simp [cloneBD]
  · cases bd with
    | mk core cs => simp [cloneBD]
  · cases bd with
    | mk core cs => simp [cloneBD]

/-- Device for the C4 counterexample: a node with non-empty `Options`
and `PtType`. -/
def c4Bd : BlockDevice :=
  .mk { id := 1, Name := "sda", PtType := "gpt", Options := "-F 32" } []

/-- Counterexample to claim C4 as stated: the clone of `c4Bd` does not
have identical field values — its `Options` and `PtType` are "" while
the original's are "-F 32" and "gpt" (the source's copy literal omits
both fields). -/
theorem C4_counterexample :
    c4Bd.core.Options = "-F 32" ∧ c4Bd.core.PtType = "gpt" ∧
    (cloneBD c4Bd 10).1.core.Options = "" ∧ (cloneBD c4Bd 10).1.core.PtType = "" ∧
    (cloneBD c4Bd 10).1.core.Options ≠ c4Bd.core.Options :=
  ⟨rfl, rfl, rfl, rfl, by decide⟩

/-- Concrete tree for the C4 witness. -/
def w4Bd : BlockDevice :=
  .mk { id := 1, Name := "sda", Size := 1000, Parent := none,
        PartTable := [ { Number := 0, Size := 1000, FileSystem := "free" } ],
        removedParts := [3] }
    [ .mk { id := 2, Name := "sda1", Size := 400, Parent := some 1 } [] ]

/-- Witness for the amended C4, instantiating the theorem at `w4Bd`
with fresh id 10 and discharging the freshness hypothesis there. -/
theorem C4_clone_amended_witness :
    bdShape (cloneBD w4Bd 10).1 = bdShape w4Bd ∧
    ptOptionsCleared (cloneBD w4Bd 10).1 = true ∧
    (∀ i ∈ idsOf (cloneBD w4Bd 10).1, i ∉ idsOf w4Bd) ∧
    parentsLinked (cloneBD w4Bd 10).1 = true ∧
    (cloneBD w4Bd 10).1.core.Parent = w4Bd.core.Parent ∧
    (cloneBD w4Bd 10).1.core.PartTable = w4Bd.core.PartTable ∧
    (cloneBD w4Bd 10).1.core.removedParts = w4Bd.core.removedParts :=
  C4_clone_amended w4Bd 10 (by decide)

/-! ## AddChild / RemoveChild (storage.go 465-515) -/

/-- The partition-name stem of a device, from its scalar fields
(storage.go 486-496): the device name, with a "p" suffix for loop
devices and for names containing "nvme" or "mmcblk". -/
def basePartitionName (c : BDCore) : String :=
  c.Name ++
    (if c.bdType == BlockDeviceType.loop || strContains c.Name "nvme" ||
        strContains c.Name "mmcblk" then "p"
     else "")

/-- Source `BlockDevice.getBasePartitionName` (storage.go 486-496). -/
def getBasePartitionName (bd : BlockDevice) : String := basePartitionName bd.core

/-- The name `AddChild` synthesizes for an unnamed child (storage.go
507-513): the parent's partition-name stem followed by the partition
number, or by "?" when no partition number is assigned. -/
def synthName (c : BDCore) (pn : Nat) : String :=
  if pn < 1 then basePartitionName c ++ "?" else basePartitionName c ++ toString pn

/-- Source `BlockDevice.AddChild` (storage.go 499-515): appends the child,
points its `Parent` at the parent, and synthesizes a name when the
child has none. -/
def AddChild (bd child : BlockDevice) : BlockDevice :=
  let child1 := child.withParent (some bd.core.id)
  let child2 :=
    if child1.Name == "" then
      if child1.partition < 1 then
        child1.withName (getBasePartitionName bd ++ "?")
      else
        child1.withName (getBasePartitionName bd ++ toString child1.partition)
    else child1
  bd.withChildren (bd.Children ++ [child2])

/-- The loop body of `RemoveChild` (storage.go 470-478): a clone whose
name matches the target is dropped (recording the match), any other
clone has its name blanked and is re-added through `AddChild`. -/
def removeStep (cname : String) (p : BlockDevice × Bool) (curr : BlockDevice) :
    BlockDevice × Bool :=
  if curr.Name == cname then (p.1, true)
  else (AddChild p.1 (curr.withName ""), p.2)

/-- Source `BlockDevice.RemoveChild` (storage.go 465-479): clones the whole
subtree (`fresh` seeds the clone ids), clears the parent's children,
then re-adds every clone except those matching the target by name; a
match clears the removed child's `Parent`.  Returns the updated parent
and the updated child. -/
def RemoveChild (bd child : BlockDevice) (fresh : Nat) : BlockDevice × BlockDevice :=
  let copyBd := (cloneBD bd fresh).1
  let res := copyBd.Children.foldl (removeStep child.Name) (bd.withChildren [], false)
  (res.1, if res.2 then child.withParent none else child)

@[simp] theorem withName_Name (b : BlockDevice) (s : String) :
    (b.withName s).Name = s := by
  cases b with
  | mk core cs => rfl

@[simp] theorem withName_partition (b : BlockDevice) (s : String) :
    (b.withName s).partition = b.partition := by
  cases b with
  | mk core cs => rfl

@[simp] theorem withParent_partition (b : BlockDevice) (p : Option Nat) :
    (b.withParent p).partition = b.partition := by
  cases b with
  | mk core cs => rfl

@[simp] theorem withParent_Name (b : BlockDevice) (p : Option Nat) :
    (b.withParent p).Name = b.Name := by
  cases b with
  | mk core cs => rfl

@[simp] theorem withName_withName (b : BlockDevice) (s t : String) :
    (b.withName s).withName t = b.withName t := by
  cases b with
  | mk core cs => rfl

theorem bdShape_withName (b : BlockDevice) (s : String) :
    bdShape (b.withName s) = (bdShape b).withName s := by
  cases b with
  | mk core cs => rw [BlockDevice.withName, bdShape, bdShape, withName_mk]

@[simp] theorem bdShape_Name (b : BlockDevice) : (bdShape b).Name = b.Name := by
  cases b with
  | mk core cs => rw [bdShape, Name_mk, Name_mk]

theorem withName_withParent (b : BlockDevice) (s : String) (p : Option Nat) :
    (b.withParent p).withName s = (b.withName s).withParent p := by
  cases b with
  | mk core cs => rfl

@[simp] theorem AddChild_core (bd child : BlockDevice) :
    (AddChild bd child).core = bd.core := by
  cases bd with
  | mk core cs => simp [AddChild]

theorem AddChild_unnamed (bd x : BlockDevice) (hx : x.Name = "") :
    (AddChild bd x).Children =
      bd.Children ++
        [(x.withParent (some bd.core.id)).withName (synthName bd.core x.partition)] := by
  cases bd with
  | mk core cs =>
    rw [AddChild]
    simp only [withParent_Name, hx, synthName, getBasePartitionName]
    by_cases hp : x.partition < 1
    · simp [hp]
    · simp [hp]

/-- The renaming `RemoveChild` applies to a kept clone. -/
def renamed (c : BDCore) (x : BlockDevice) : BlockDevice :=
  ((x.withName "").withParent (some c.id)).withName (synthName c x.partition)

theorem keyOf_renamed (c : BDCore) (x : BlockDevice) :
    bdShape ((renamed c x).withName "") = bdShape (x.withName "") := by
  rw [renamed, withName_withName, withName_withParent, bdShape_withParent,
    withName_withName]

theorem removeFold (cname : String) (L : List BlockDevice) :
    ∀ (acc : BlockDevice) (flag : Bool),
      (L.foldl (removeStep cname) (acc, flag)).1.core = acc.core ∧
      ((L.foldl (removeStep cname) (acc, flag)).1.Children.map
          (fun x => bdShape (x.withName "")) =
        acc.Children.map (fun x => bdShape (x.withName "")) ++
          (L.filter (fun x => !(x.Name == cname))).map (fun x => bdShape (x.withName ""))) ∧
      (∀ x ∈ (L.foldl (removeStep cname) (acc, flag)).1.Children,
        x ∈ acc.Children ∨ x.Name = synthName acc.core x.partition) ∧
      (L.foldl (removeStep cname) (acc, flag)).2 =
        (flag || L.any (fun x => x.Name == cname)) := by
  induction L with
  | nil =>
    intro acc flag
    exact ⟨rfl, by simp, fun x hx => Or.inl hx, by simp⟩
  | cons x rest ih =>
    intro acc flag
    rw [List.foldl_cons]
    by_cases hx : (x.Name == cname) = true
    · rw [removeStep, if_pos hx]
      obtain ⟨ic, im, names, ifl⟩ := ih acc true
      refine ⟨ic, ?_, names, ?_⟩
      · rw [im, List.filter_cons, hx]
        simp
      · rw [ifl, List.any_cons, hx]
        simp
    · rw [removeStep, if_neg hx]
      obtain ⟨ic, im, names, ifl⟩ := ih (AddChild acc (x.withName "")) flag
      have hadd : (AddChild acc (x.withName "")).Children =
          acc.Children ++ [renamed acc.core x] := by
        rw [AddChild_unnamed acc (x.withName "") (withName_Name x "")]
        rw [renamed]
        simp
      refine ⟨by rw [ic, AddChild_core], ?_, ?_, ?_⟩
      · rw [im, hadd, List.filter_cons]
        rw [Bool.not_eq_true] at hx
        rw [hx]
        simp only [Bool.not_false, if_true, List.map_append, List.map_cons, List.map_nil,
          List.append_assoc, List.cons_append, List.nil_append, keyOf_renamed]
      · intro y hy
        rcases names y hy with h1 | h1
        · rw [hadd] at h1
          rcases List.mem_append.mp h1 with h2 | h2
          · exact Or.inl h2
          · refine Or.inr ?_
            have h3 : y = renamed acc.core x := by simpa using h2
            subst h3
            rw [renamed, withName_Name]
            congr 1
            simp [renamed]
        · rw [AddChild_core] at h1
          exact Or.inr h1
      · rw [ifl]
        simp only [List.any_cons]
        rw [Bool.not_eq_true] at hx
        rw [hx]
        simp

@[simp] theorem withChildren_core (b : BlockDevice) (cs : List BlockDevice) :
    (b.withChildren cs).core = b.core := by
  cases b with
  | mk c l => rfl

@[simp] theorem withChildren_Children (b : BlockDevice) (cs : List BlockDevice) :
    (b.withChildren cs).Children = cs := by
  cases b with
  | mk c l => rfl

theorem bdShapeList_eq_map : ∀ l : List BlockDevice, bdShapeList l = l.map bdShape
  | [] => rfl
  | b :: bs => by rw [bdShapeList, List.map_cons, bdShapeList_eq_map bs]

theorem clone_children_shape (bd : BlockDevice) (fresh : Nat) :
    (cloneBD bd fresh).1.Children.map bdShape = bd.Children.map bdShape := by
  have hs := cloneBD_shape bd fresh
  cases bd with
  | mk core cs =>
    cases hclone : (cloneBD (BlockDevice.mk core cs) fresh).1 with
    | mk core2 L =>
      rw [hclone, bdShape, bdShape] at hs
      have hinj := (BlockDevice.mk.injEq _ _ _ _).mp hs
      rw [children_mk, children_mk, ← bdShapeList_eq_map, ← bdShapeList_eq_map]
      exact hinj.2

theorem map_Name_of_shape (l1 l2 : List BlockDevice)
    (h : l1.map bdShape = l2.map bdShape) :
    l1.map BlockDevice.Name = l2.map BlockDevice.Name := by
  have e : ∀ l : List BlockDevice,
      l.map BlockDevice.Name = (l.map bdShape).map BlockDevice.Name := by
    intro l
    induction l with
    | nil => rfl
    | cons a t ih => simp only [List.map_cons, bdShape_Name, ih]
  rw [e l1, e l2, h]

theorem filterKey_of_shape (cname : String) (l1 : List BlockDevice) :
    ∀ l2 : List BlockDevice, l1.map bdShape = l2.map bdShape →
    (l1.filter (fun x => !(x.Name == cname))).map (fun x => bdShape (x.withName "")) =
      (l2.filter (fun x => !(x.Name == cname))).map (fun x => bdShape (x.withName "")) := by
  induction l1 with
  | nil =>
    intro l2 h
    cases l2 with
    | nil => rfl
    | cons b t => simp at h
  | cons a t ih =>
    intro l2 h
    cases l2 with
    | nil => simp at h
    | cons b u =>
      simp only [List.map_cons, List.cons.injEq] at h
      obtain ⟨hab, htu⟩ := h
      have hname : a.Name = b.Name := by
        rw [← bdShape_Name a, ← bdShape_Name b, hab]
      have hkey : bdShape (a.withName "") = bdShape (b.withName "") := by
        rw [bdShape_withName, bdShape_withName, hab]
      rw [List.filter_cons, List.filter_cons, hname]
      by_cases hq : (!(b.Name == cname)) = true
      · rw [if_pos hq, if_pos hq]
        simp only [List.map_cons, hkey, ih u htu]
      · rw [if_neg hq, if_neg hq]
        exact ih u htu

/-- Claim C5 (amended): after `RemoveChild(c)` with `c` among the
children by name, the parent's children are the clones of the original
children not named `c.Name`, in their original relative order and with
identical per-node values apart from the regenerated top-level name
(`bdShape` after erasing the name); every remaining child carries a
synthesized name — parent stem plus partition number, or "?" when
unassigned — so an element named `c.Name` can reappear when such a
synthesized name collides with it; and the removed child's `Parent`
is nil.  (`bdShape` also erases `PtType`/`Options`, which the clones
lose because `Clone` does not copy them.) -/
theorem C5_removeChild_amended (bd child : BlockDevice) (fresh : Nat)
    (h : child.Name ∈ bd.Children.map BlockDevice.Name) :
    ((RemoveChild bd child fresh).1.Children.map (fun x => bdShape (x.withName "")) =
      (bd.Children.filter (fun x => !(x.Name == child.Name))).map
        (fun x => bdShape (x.withName ""))) ∧
    (∀ x ∈ (RemoveChild bd child fresh).1.Children,
      x.Name = synthName bd.core x.partition) ∧
    (RemoveChild bd child fresh).2.core.Parent = none := by
  have hshape := clone_children_shape bd fresh
  obtain ⟨fc, fm, fnames, ffl⟩ :=
    removeFold child.Name (cloneBD bd fresh).1.Children (bd.withChildren []) false
  have hflag : ((cloneBD bd fresh).1.Children.foldl (removeStep child.Name)
      (bd.withChildren [], false)).2 = true := by
    rw [ffl]
    have hmem : child.Name ∈ (cloneBD bd fresh).1.Children.map BlockDevice.Name := by
      rw [map_Name_of_shape _ _ hshape]
      exact h
    obtain ⟨x, hx, hxn⟩ := List.mem_map.mp hmem
    simp only [Bool.false_or]
    rw [List.any_eq_true]
    exact ⟨x, hx, by rw [hxn]; simp⟩
  refine ⟨?_, ?_, ?_⟩
  · rw [RemoveChild]
    simp only []
    rw [fm]
    simp only [withChildren_Children, List.map_nil, List.nil_append]
    exact filterKey_of_shape child.Name _ _ hshape
  · rw [RemoveChild]
    simp only []
    intro x hx
    rcases fnames x hx with h1 | h1
    · rw [withChildren_Children] at h1
      exact absurd h1 (List.not_mem_nil x)
    · rw [withChildren_core] at h1
      exact h1
  · rw [RemoveChild]
    simp only [hflag]
    simp

/-- Children for the C5 counterexample: removing `rcB`, named "sda?",
makes `AddChild` resynthesize the kept child's name as "sda" + "?". -/
def rcA : BlockDevice := .mk { id := 2, Name := "x", Parent := some 1 } []

/-- The child removed in the C5 counterexample. -/
def rcB : BlockDevice := .mk { id := 3, Name := "sda?", Parent := some 1 } []

/-- The parent in the C5 counterexample. -/
def rcParent : BlockDevice := .mk { id := 1, Name := "sda" } [rcA, rcB]

/-- Counterexample to claim C5 as stated: `rcB` is a child of
`rcParent`, yet after `RemoveChild(rcB)` the children still contain an
element named `rcB.Name` ("sda?"), because the surviving child's name
is regenerated as the parent stem plus "?". -/
theorem C5_counterexample :
    rcB ∈ rcParent.Children ∧
    rcB.Name ∈ (RemoveChild rcParent rcB 10).1.Children.map BlockDevice.Name := by
  constructor
  · show rcB ∈ [rcA, rcB]
    exact List.mem_cons_of_mem _ (List.mem_cons_self _ _)
  · decide

/-- First child for the C5 witness. -/
def w5A : BlockDevice :=
  .mk { id := 2, Name := "sda1", Size := 7, partition := 1, Parent := some 1 } []

/-- Child removed by the C5 witness. -/
def w5B : BlockDevice :=
  .mk { id := 3, Name := "sda2", partition := 2, Parent := some 1 } []

/-- Parent device for the C5 witness. -/
def w5Parent : BlockDevice := .mk { id := 1, Name := "sda" } [w5A, w5B]

/-- Witness for the amended C5, instantiating the theorem at
`w5Parent`/`w5B` and discharging the membership hypothesis there. -/
theorem C5_removeChild_amended_witness :
    ((RemoveChild w5Parent w5B 20).1.Children.map (fun x => bdShape (x.withName "")) =
      (w5Parent.Children.filter (fun x => !(x.Name == w5B.Name))).map
        (fun x => bdShape (x.withName ""))) ∧
    (∀ x ∈ (RemoveChild w5Parent w5B 20).1.Children,
      x.Name = synthName w5Parent.core x.partition) ∧
    (RemoveChild w5Parent w5B 20).2.core.Parent = none :=
  C5_removeChild_amended w5Parent w5B 20 (by decide)

/-! ## Equals and the user-defined merge (storage.go 655-678, 754-761) -/

/-- Source `BlockDevice.Equals` (storage.go 754-761): structural identity by
name, model and major:minor (the Go nil-receiver check has no
counterpart for values). -/
def Equals (bd cmp : BlockDevice) : Bool :=
  bd.Name == cmp.Name && bd.Model == cmp.Model && bd.MajorMinor == cmp.MajorMinor

/-- The merge tail of `listBlockDevices` (storage.go 655-678): with a
non-empty user-defined list, each freshly discovered device is
replaced by the first user-defined device that `Equals` it, in
position; discovered devices with no match are kept; user-defined
devices that match nothing are dropped.  The probing and decoding that
produce `bds` are external and not modelled. -/
def mergeBlockDevices (bds userDefined : List BlockDevice) : List BlockDevice :=
  if userDefined.isEmpty then bds
  else
    bds.map (fun loaded =>
      match userDefined.find? (fun udef => Equals loaded udef) with
      | some udef => udef
      | none => loaded)

theorem Equals_refl (bd : BlockDevice) : Equals bd bd = true := by
  simp [Equals]

theorem ne_of_Equals_false (d u : BlockDevice) (h : Equals d u = false) : d ≠ u := by
  intro he
  rw [he, Equals_refl] at h
  exact Bool.noConfusion h

/-- Claim C6: merging a discovered list `bds` with a non-empty
user-defined list yields one entry per discovered device, in order: at
each position the first user-defined device that `Equals` the
discovered one (the user-defined entry, with all its fields, wins),
otherwise the discovered device itself; and every user-defined device
that matches no discovered device is absent from the result. -/
theorem C6_merge_spec (bds userDefined : List BlockDevice) (hne : userDefined ≠ []) :
    (mergeBlockDevices bds userDefined).length = bds.length ∧
    (∀ (i : Nat) (d : BlockDevice), bds[i]? = some d →
      (mergeBlockDevices bds userDefined)[i]? =
        some (match userDefined.find? (fun udef => Equals d udef) with
        | some udef => udef
        | none => d)) ∧
    (∀ u ∈ userDefined, (∀ d ∈ bds, Equals d u = false) →
      u ∉ mergeBlockDevices bds userDefined) := by
  have hub : userDefined.isEmpty = false := by
    cases userDefined with
    | nil => exact absurd rfl hne
    | cons a t => rfl
  rw [mergeBlockDevices, hub]
  simp only [Bool.false_eq_true, if_false]
  refine ⟨List.length_map _ _, ?_, ?_⟩
  · intro i d hd
    rw [List.getElem?_map, hd]
    rfl
  · intro u hu hnomatch hmem
    obtain ⟨d, hd, hchoice⟩ := List.mem_map.mp hmem
    cases hfind : userDefined.find? (fun udef => Equals d udef) with
    | none =>
      rw [hfind] at hchoice
      exact ne_of_Equals_false d u (hnomatch d hd) hchoice
    | some u2 =>
      rw [hfind] at hchoice
      have hequ : Equals d u2 = true := by
        have h2 := List.find?_some hfind
        exact h2
      rw [show u2 = u from hchoice] at hequ
      rw [hnomatch d hd] at hequ
      exact Bool.noConfusion hequ

/-- Discovered device for the C6 witness, mirroring the spec's
example: `sda`, model X, major:minor 8:0, no mount point. -/
def w6Disc : BlockDevice :=
  .mk { Name := "sda", Model := "X", MajorMinor := "8:0" } []

/-- User-defined device for the C6 witness: same identity triple, but
with `MountPoint` "/" set — the merged result carries it. -/
def w6User : BlockDevice :=
  .mk { Name := "sda", Model := "X", MajorMinor := "8:0", MountPoint := "/",
        UserDefined := true } []

/-- Witness for C6, instantiating the theorem at the spec's `sda`
example and discharging the non-emptiness hypothesis there. -/
theorem C6_merge_spec_witness :
    (mergeBlockDevices [w6Disc] [w6User]).length = [w6Disc].length ∧
    (∀ (i : Nat) (d : BlockDevice), [w6Disc][i]? = some d →
      (mergeBlockDevices [w6Disc] [w6User])[i]? =
        some (match [w6User].find? (fun udef => Equals d udef) with
        | some udef => udef
        | none => d)) ∧
    (∀ u ∈ [w6User], (∀ d ∈ [w6Disc], Equals d u = false) →
      u ∉ mergeBlockDevices [w6Disc] [w6User]) :=
  C6_merge_spec [w6Disc] [w6User] (by simp)

/-! ## Standard layout planner (storage.go 182-183, 1310-1408) -/

/-- Source `bootSize` (storage.go 182): 150 * 1000 * 1000 bytes. -/
def bootSize : Nat := 150 * (1000 * 1000)

/-- Source `swapSize` (storage.go 183): 256 * 1000 * 1000 bytes. -/
def swapSize : Nat := 256 * (1000 * 1000)

/-- Modelled from the spec: the free-space bookkeeping of an
allocation (spec §4.5) — the allocated span is consumed from the free
row that `findFree` matched, the remainder (if any) staying free. -/
def consumeFree : List PartedPartition → PartedPartition → Nat → List PartedPartition
  | [], _, _ => []
  | row :: rest, fp, size =>
    if row = fp then
      if size < row.Size then
        { row with Start := row.Start + size, Size := row.Size - size } :: rest
      else rest
    else row :: consumeFree rest fp size

/-- Modelled from the spec: `AddFromFreePartition` is invoked by the
planner (storage.go 1313, 1375, 1387, 1398) but is not defined in this
source tree.  Per spec §4.5, allocation from a found free region
attaches the child to the disk (`AddChild` sets the parent reference
and synthesizes the name) and consumes the allocated span from the
free-space table; when no free region was found, the child is not
attached.  Rows for allocated partitions are not reconstructed, since
nothing in this source reads them. -/
def AddFromFreePartition (disk : BlockDevice) (freePart : Option PartedPartition)
    (child : BlockDevice) : BlockDevice :=
  match freePart with
  | none => disk
  | some fp =>
    AddChild (disk.withPartTable (consumeFree disk.PartTable fp child.Size)) child

/-- Source `NewStandardPartitions` (storage.go 1360-1408): resets the disk's
children and partition table to a single whole-disk free region,
computes the root size as disk size minus boot minus swap (uint64
subtraction, modelled modulo 2^64), then sequentially allocates boot
(vfat, "/boot"), swap, and root (ext4, "/") from first-fit free
regions, with make/format intents set. -/
def NewStandardPartitions (disk : BlockDevice) : BlockDevice :=
  let disk1 := (disk.withChildren []).withPartTable
    [{ Number := 0, Start := 0, End := disk.Size, Size := disk.Size, FileSystem := "free" }]
  let rootSize := (disk.Size + (2 ^ 64 - (bootSize + swapSize))) % 2 ^ 64
  let disk2 := AddFromFreePartition disk1 (findFree disk1 bootSize)
    (.mk { Size := bootSize, bdType := .part, FsType := "vfat", MountPoint := "/boot",
           Label := "boot", UserDefined := true, MakePartition := true,
           FormatPartition := true } [])
  let disk3 := AddFromFreePartition disk2 (findFree disk2 swapSize)
    (.mk { Size := swapSize, bdType := .part, FsType := "swap", Label := "swap",
           UserDefined := true, MakePartition := true, FormatPartition := true } [])
  AddFromFreePartition disk3 (findFree disk3 rootSize)
    (.mk { Size := rootSize, bdType := .part, FsType := "ext4", MountPoint := "/",
           Label := "root", UserDefined := true, MakePartition := true,
           FormatPartition := true } [])

/-- Claim C2: on any disk declaring 10,000,000,000 bytes — whatever
its prior children and partition table, which are discarded —
`NewStandardPartitions` produces exactly three children in order: boot
(vfat, "/boot", 150,000,000), swap (swap, 256,000,000) and root
(ext4, "/", 9,594,000,000), each with `MakePartition` and
`FormatPartition` set, and their sizes sum to the disk size. -/
theorem C2_newStandardPartitions (disk : BlockDevice) (h : disk.Size = 10000000000) :
    ((NewStandardPartitions disk).Children.map
        (fun c => (c.FsType, c.MountPoint, c.Size, c.MakePartition, c.FormatPartition)) =
      [("vfat", "/boot", 150000000, true, true),
       ("swap", "", 256000000, true, true),
       ("ext4", "/", 9594000000, true, true)]) ∧
    ((NewStandardPartitions disk).Children.map BlockDevice.Size).sum = disk.Size := by
  cases disk with
  | mk core cs =>
    rw [Size_mk] at h
    simp only [NewStandardPartitions, Size_mk, h]
    norm_num [bootSize, swapSize]
    simp only [AddFromFreePartition, findFree, withChildren_mk, withPartTable_mk,
      PartTable_mk]
    norm_num [findFreeLoop, PartedPartition.Clone, consumeFree, AddChild]
    simp [BlockDevice.FsType, BlockDevice.MountPoint, BlockDevice.Size,
      BlockDevice.MakePartition, BlockDevice.FormatPartition]

/-- Disk for the C2 witness: declares 10,000,000,000 bytes and carries
stale children and a stale partition table, both discarded by the
planner. -/
def w2Disk : BlockDevice :=
  .mk { id := 1, Name := "sda", Size := 10000000000,
        PartTable := [ { Number := 1, Start := 0, End := 5, Size := 5,
                         FileSystem := "ext4" } ] }
    [ .mk { id := 2, Name := "sda1", Size := 5 } [] ]

/-- Witness for C2, instantiating the theorem at `w2Disk` and
discharging the size hypothesis there. -/
theorem C2_newStandardPartitions_witness :
    ((NewStandardPartitions w2Disk).Children.map
        (fun c => (c.FsType, c.MountPoint, c.Size, c.MakePartition, c.FormatPartition)) =
      [("vfat", "/boot", 150000000, true, true),
       ("swap", "", 256000000, true, true),
       ("ext4", "/", 9594000000, true, true)]) ∧
    ((NewStandardPartitions w2Disk).Children.map BlockDevice.Size).sum = w2Disk.Size :=
  C2_newStandardPartitions w2Disk rfl

/-! ## Device-listing decode post-pass (storage.go 763-797) -/

/-- The child loop of the decode post-pass (storage.go 776-788): sets
each child's `Parent` to the device, stopping — further siblings left
untouched — at the first child with a non-empty mount point or a
label containing "CLR_ISO", which marks the device unavailable. -/
def childScan (pid : Nat) : List BlockDevice → List BlockDevice × Bool
  | [] => ([], true)
  | ch :: rest =>
    let ch2 := ch.withParent (some pid)
    if ch2.MountPoint != "" then (ch2 :: rest, false)
    else if strContains ch2.Label "CLR_ISO" then (ch2 :: rest, false)
    else
      let p := childScan pid rest
      (ch2 :: p.1, p.2)

/-- The per-device decode post-pass (storage.go 773-794): the child
scan, then the squashfs filesystem check, determine `available`. -/
def postPass (bd : BlockDevice) : BlockDevice :=
  let p := childScan bd.core.id bd.Children
  (bd.withChildren p.1).withAvailable (p.2 && !(strContains bd.FsType "squashfs"))

/-- Source `parseBlockDevicesDescriptor` (storage.go 763-797), applied to the
already-unmarshalled top-level devices.  `BlockDevice.UnmarshalJSON`
(storage.go 1011-1161) never assigns `Parent`, so decoder output has a
nil `Parent` at every node — the hypothesis of the theorems below;
the post-pass then touches only the immediate children of each
top-level device. -/
def parseBlockDevicesDescriptor (bds : List BlockDevice) : List BlockDevice :=
  bds.map postPass

mutual
/-- Every node of the tree, the root included, has a nil `Parent`. -/
def allParentsNone : BlockDevice → Bool
  | .mk core cs => (core.Parent == none) && allParentsNoneList cs
/-- Predicate `allParentsNone` over a list of trees. -/
def allParentsNoneList : List BlockDevice → Bool
  | [] => true
  | b :: bs => allParentsNone b && allParentsNoneList bs
end

/-- Whether a child disqualifies its device from availability
(storage.go 778-787). -/
def disqualifies (ch : BlockDevice) : Bool :=
  ch.MountPoint != "" || strContains ch.Label "CLR_ISO"

@[simp] theorem withParent_MountPoint (b : BlockDevice) (p : Option Nat) :
    (b.withParent p).MountPoint = b.MountPoint := by
  cases b with
  | mk core cs => rfl

@[simp] theorem withParent_Label (b : BlockDevice) (p : Option Nat) :
    (b.withParent p).Label = b.Label := by
  cases b with
  | mk core cs => rfl

@[simp] theorem withParent_Children (b : BlockDevice) (p : Option Nat) :
    (b.withParent p).Children = b.Children := by
  cases b with
  | mk core cs => rfl

@[simp] theorem withAvailable_Children (b : BlockDevice) (v : Bool) :
    (b.withAvailable v).Children = b.Children := by
  cases b with
  | mk core cs => rfl

theorem childScan_eq (pid : Nat) (cs : List BlockDevice) :
    childScan pid cs = match cs with
    | [] => ([], true)
    | ch :: rest =>
      if disqualifies ch then (ch.withParent (some pid) :: rest, false)
      else (ch.withParent (some pid) :: (childScan pid rest).1, (childScan pid rest).2) := by
  cases cs with
  | nil => rfl
  | cons ch rest =>
    rw [childScan]
    simp only [withParent_MountPoint, withParent_Label, disqualifies]
    by_cases h1 : (ch.MountPoint != "") = true
    · simp [h1]
    · rw [Bool.not_eq_true] at h1
      by_cases h2 : strContains ch.Label "CLR_ISO" = true
      · simp [h1, h2]
      · rw [Bool.not_eq_true] at h2
        simp [h1, h2]

theorem allParentsNoneList_mem (cs : List BlockDevice)
    (h : allParentsNoneList cs = true) : ∀ b ∈ cs, allParentsNone b = true := by
  induction cs with
  | nil => intro b hb; exact absurd hb (List.not_mem_nil b)
  | cons a t ih =>
    rw [allParentsNoneList, Bool.and_eq_true] at h
    intro b hb
    rcases List.mem_cons.mp hb with h1 | h1
    · rw [h1]; exact h.1
    · exact ih h.2 b h1

theorem allParentsNoneList_of_mem (cs : List BlockDevice)
    (h : ∀ b ∈ cs, allParentsNone b = true) : allParentsNoneList cs = true := by
  induction cs with
  | nil => rfl
  | cons a t ih =>
    rw [allParentsNoneList, Bool.and_eq_true]
    exact ⟨h a (List.mem_cons_self a t),
      ih (fun b hb => h b (List.mem_cons_of_mem a hb))⟩

theorem allParentsNone_parent (b : BlockDevice) (h : allParentsNone b = true) :
    b.core.Parent = none := by
  cases b with
  | mk core cs =>
    rw [allParentsNone, Bool.and_eq_true] at h
    simpa using h.1

theorem allParentsNone_children (b : BlockDevice) (h : allParentsNone b = true) :
    ∀ g ∈ b.Children, allParentsNone g = true := by
  cases b with
  | mk core cs =>
    rw [allParentsNone, Bool.and_eq_true] at h
    exact allParentsNoneList_mem cs h.2

theorem childScan_spec (pid : Nat) (cs : List BlockDevice)
    (hall : ∀ b ∈ cs, allParentsNone b = true) :
    (childScan pid cs).1.length = cs.length ∧
    (∀ (i : Nat) (ch : BlockDevice), ((childScan pid cs).1)[i]? = some ch →
      ch.core.Parent = (if i ≤ cs.findIdx disqualifies then some pid else none)) ∧
    (∀ c ∈ (childScan pid cs).1, ∀ g ∈ c.Children, allParentsNone g = true) := by
  induction cs with
  | nil =>
    refine ⟨rfl, ?_, ?_⟩
    · intro i ch hch
      rw [childScan] at hch
      simp at hch
    · intro c hc
      rw [childScan] at hc
      exact absurd hc (List.not_mem_nil c)
  | cons a t ih =>
    have ha := hall a (List.mem_cons_self a t)
    have ht : ∀ b ∈ t, allParentsNone b = true :=
      fun b hb => hall b (List.mem_cons_of_mem a hb)
    obtain ⟨il, ig, ic⟩ := ih ht
    rw [childScan_eq]
    simp only []
    by_cases hd : disqualifies a = true
    · rw [if_pos hd]
      refine ⟨by simp, ?_, ?_⟩
      · intro i ch hch
        rw [List.findIdx_cons, hd, cond_true]
        cases i with
        | zero =>
          simp only [List.getElem?_cons_zero, Option.some.injEq] at hch
          rw [← hch, withParent_core_Parent]
          simp
        | succ j =>
          simp only [List.getElem?_cons_succ] at hch
          have := allParentsNone_parent ch (ht ch (List.getElem?_mem hch))
          rw [this]
          simp [Nat.succ_ne_zero]
      · intro c hc
        rcases List.mem_cons.mp hc with h1 | h1
        · rw [h1, withParent_Children]
          exact allParentsNone_children a ha
        · exact fun g hg => allParentsNone_children c (ht c h1) g hg
    · rw [Bool.not_eq_true] at hd
      rw [if_neg (by rw [hd]; simp)]
      refine ⟨by simpa using il, ?_, ?_⟩
      · intro i ch hch
        rw [List.findIdx_cons, hd, cond_false]
        cases i with
        | zero =>
          simp only [List.getElem?_cons_zero, Option.some.injEq] at hch
          rw [← hch, withParent_core_Parent]
          simp
        | succ j =>
          simp only [List.getElem?_cons_succ] at hch
          have := ig j ch hch
          rw [this]
          by_cases hj : j ≤ t.findIdx disqualifies
          · rw [if_pos hj, if_pos (Nat.succ_le_succ hj)]
          · rw [if_neg hj, if_neg (fun hc => hj (Nat.le_of_succ_le_succ hc))]
      · intro c hc
        rcases List.mem_cons.mp hc with h1 | h1
        · rw [h1, withParent_Children]
          exact allParentsNone_children a ha
        · exact ic c h1

theorem postPass_Children (bd : BlockDevice) :
    (postPass bd).Children = (childScan bd.core.id bd.Children).1 := by
  cases bd with
  | mk core cs => simp [postPass]

/-- Claim C10 (amended): applied to decoder output (which has a nil
`Parent` at every node, since `UnmarshalJSON` never assigns one), the
decode post-pass gives a `Parent` back-reference only to the
immediate children of each top-level device, and only to those up to
and including the first disqualifying child (non-empty mount point or
CLR_ISO label); later siblings and all deeper descendants keep a nil
`Parent`. -/
theorem C10_parse_amended (bds : List BlockDevice)
    (h : ∀ bd ∈ bds, allParentsNone bd = true) :
    parseBlockDevicesDescriptor bds = bds.map postPass ∧
    ∀ bd ∈ bds,
      (postPass bd).Children.length = bd.Children.length ∧
      (∀ (i : Nat) (ch : BlockDevice), ((postPass bd).Children)[i]? = some ch →
        ch.core.Parent =
          (if i ≤ bd.Children.findIdx disqualifies then some bd.core.id else none)) ∧
      (∀ c ∈ (postPass bd).Children, ∀ g ∈ c.Children, allParentsNone g = true) := by
  refine ⟨rfl, ?_⟩
  intro bd hbd
  have hcs : ∀ b ∈ bd.Children, allParentsNone b = true :=
    allParentsNone_children bd (h bd hbd)
  obtain ⟨hl, hg, hc⟩ := childScan_spec bd.core.id bd.Children hcs
  rw [postPass_Children]
  exact ⟨hl, hg, hc⟩

/-- Tree for the C10 counterexample: a freshly decoded root with one
child and one grandchild, no mount points, no CLR_ISO labels. -/
def px10 : BlockDevice :=
  .mk { id := 1, Name := "sda" }
    [ .mk { id := 2, Name := "sda1" } [ .mk { id := 3, Name := "lv0" } [] ] ]

/-- Counterexample to claim C10 as stated: the input is genuine
decoder output (nil `Parent` everywhere), yet after
`parseBlockDevicesDescriptor` not every non-root node holds a
`Parent` back-reference to its owner — the grandchild's stays nil. -/
theorem C10_counterexample :
    allParentsNoneList [px10] = true ∧
    ¬ (∀ bd ∈ parseBlockDevicesDescriptor [px10], parentsLinked bd = true) := by
  refine ⟨rfl, ?_⟩
  intro hall
  have h1 : parentsLinked (postPass px10) = true :=
    hall (postPass px10) (by simp [parseBlockDevicesDescriptor])
  have h2 : parentsLinked (postPass px10) = false := by rfl
  rw [h1] at h2
  exact Bool.noConfusion h2

/-- Device for the C10 witness: decoder output with a disqualifying
first child (mounted at "/home") and a second child left untouched by
the early loop exit. -/
def w10Bd : BlockDevice :=
  .mk { id := 5, Name := "sdb" }
    [ .mk { id := 6, Name := "sdb1", MountPoint := "/home" } [],
      .mk { id := 7, Name := "sdb2" } [] ]

/-- Witness for the amended C10, instantiating the theorem at `w10Bd`
and discharging the nil-parent hypothesis there. -/
theorem C10_parse_amended_witness :
    parseBlockDevicesDescriptor [w10Bd] = [w10Bd].map postPass ∧
    ∀ bd ∈ [w10Bd],
      (postPass bd).Children.length = bd.Children.length ∧
      (∀ (i : Nat) (ch : BlockDevice), ((postPass bd).Children)[i]? = some ch →
        ch.core.Parent =
          (if i ≤ bd.Children.findIdx disqualifies then some bd.core.id else none)) ∧
      (∀ c ∈ (postPass bd).Children, ∀ g ∈ c.Children, allParentsNone g = true) :=
  C10_parse_amended [w10Bd] (by decide)

end ClrStorage
